import Mathlib

/-!
Shallow embedding of `src/visual.py` (DICOM volume loading and slice
visualization) together with proofs about it.

Modelling conventions:
* Python strings are embedded as `List Char`; `str.lower` is `lowerStr`,
  `str.endswith` is `strEndsWith`, and the `in` substring test is
  `strContains`.
* A DICOM file on disk is a `DicomFile` record carrying the metadata and the
  pixel array the code reads (`InstanceNumber`, `Rows`, `Columns`,
  `PixelSpacing`, `SliceThickness`, `pixel_array`).  Stored pixel samples are
  integers; the float32 cast and the normalization arithmetic are embedded
  over `ℚ` (exact arithmetic in place of IEEE rounding).
* A directory is the list of its files in `os.listdir` order; an `os.walk`
  traversal is the list of `(root, files)` pairs in walk order.
* Fallible Python code (IndexError on an empty file list, numpy shape
  mismatch on slice assignment, a raised exception propagating out of
  `create_mri_visualization`) is embedded with `Option` / `Except`.
-/

namespace DicomViz

/-- Python strings as lists of characters. -/
abbrev Str := List Char

/-- `str.lower()`. -/
def lowerStr (s : Str) : Str := s.map Char.toLower

/-- `s.endswith(suffixStr)`. -/
def strEndsWith (s suffixStr : Str) : Bool := List.isSuffixOf suffixStr s

/-- Python `pat in s` (substring containment). -/
def strContains (pat : Str) : Str → Bool
  | [] => List.isPrefixOf pat []
  | c :: rest => List.isPrefixOf pat (c :: rest) || strContains pat rest

/-- `filename.lower().endswith(".dcm")`, the file filter used by both
`find_t1_series` and `load_dicom_series`. -/
def isDcmName (n : Str) : Bool := strEndsWith (lowerStr n) (".dcm".toList)

/-- One DICOM file of a series: its filename plus the metadata and pixel
array that `load_dicom_series` reads from it. -/
structure DicomFile where
  name : Str
  instanceNumber : Int
  rows : Nat
  cols : Nat
  pixels : List (List Int)
  pixelSpacing : ℚ × ℚ
  sliceThickness : ℚ

/-- Placeholder file used as the default of `List.getD`. -/
def dummyFile : DicomFile :=
  { name := [], instanceNumber := 0, rows := 0, cols := 0, pixels := [],
    pixelSpacing := (0, 0), sliceThickness := 0 }

/-- The pixel value at row `j`, column `k` of a file's pixel array. -/
def pixelAt (f : DicomFile) (j k : Nat) : Int := (f.pixels.getD j []).getD k 0

/-- Comparison on files used by `dicom_files.sort(key=lambda x: int(... .InstanceNumber))`. -/
def leInst (a b : DicomFile) : Prop := a.instanceNumber ≤ b.instanceNumber

instance : DecidableRel leInst := fun a b =>
  inferInstanceAs (Decidable (a.instanceNumber ≤ b.instanceNumber))

/-- Insert a file into a list sorted by `InstanceNumber`. -/
def insertFile (a : DicomFile) : List DicomFile → List DicomFile
  | [] => [a]
  | b :: bs => if a.instanceNumber ≤ b.instanceNumber then a :: b :: bs else b :: insertFile a bs

/-- Ascending sort by integer `InstanceNumber`, embedding
`dicom_files.sort(key=lambda x: int(pydicom.dcmread(...).InstanceNumber))`. -/
def sortFiles : List DicomFile → List DicomFile
  | [] => []
  | a :: as => insertFile a (sortFiles as)

/-- The `.dcm`-suffix filter on a directory listing, embedding
`[f for f in os.listdir(directory) if f.lower().endswith('.dcm')]`. -/
def dcmFilter (dir : List DicomFile) : List DicomFile :=
  dir.filter (fun f => isDcmName f.name)

/-- The directory listing sorted ascending by `InstanceNumber`. -/
def sortedDcm (dir : List DicomFile) : List DicomFile := sortFiles (dcmFilter dir)

/-- A 3D array of raw (integer) pixel samples, axis order
(row, column, slice); `data` outside the dims is the `np.zeros` fill. -/
structure Volume where
  rows : Nat
  cols : Nat
  depth : Nat
  data : Nat → Nat → Nat → Int

/-- `np.zeros(img_shape, dtype=np.float32)`. -/
def zerosVol (r c d : Nat) : Volume :=
  { rows := r, cols := c, depth := d, data := fun _ _ _ => 0 }

/-- Whether `f.pixel_array` has exactly the (row, column) shape of the
volume, so that `volume[:, :, i] = ds.pixel_array` is a legal numpy
assignment. -/
def shapeOk (vol : Volume) (f : DicomFile) : Bool :=
  f.pixels.length == vol.rows && f.pixels.all (fun r => r.length == vol.cols)

/-- One iteration of the loading loop: `volume[:, :, i] = ds.pixel_array`;
`none` models the numpy broadcast error on a shape mismatch. -/
def assignSlice (vol : Volume) (i : Nat) (f : DicomFile) : Option Volume :=
  if shapeOk vol f then
    some { vol with data := fun j k m => if m = i then pixelAt f j k else vol.data j k m }
  else none

/-- The loading loop `for i, file in enumerate(dicom_files): ...`, threading
the slice counter `i`, the volume, and the loop variable `ds` (the file most
recently read). -/
def loadLoop : List DicomFile → Nat → Volume → DicomFile → Option (Volume × DicomFile)
  | [], _, vol, ds => some (vol, ds)
  | f :: fs, i, vol, _ =>
      (assignSlice vol i f).bind (fun v2 => loadLoop fs (i + 1) v2 f)

/-- The raw (pre-normalization) part of `load_dicom_series`: filter, sort,
allocate from the first sorted file's `Rows`/`Columns` metadata, then stack.
`none` models the `dicom_files[0]` IndexError on an empty list and the
numpy error on a shape mismatch. -/
def loadStack (dir : List DicomFile) : Option (Volume × DicomFile) :=
  match sortedDcm dir with
  | [] => none
  | f0 :: rest =>
      loadLoop (f0 :: rest) 0 (zerosVol f0.rows f0.cols (f0 :: rest).length) f0

/-- All entries of the volume within its dims, the multiset over which
`volume.min()` and `volume.max()` range. -/
def volVals (v : Volume) : List Int :=
  (List.range v.rows).flatMap fun j =>
    (List.range v.cols).flatMap fun k =>
      (List.range v.depth).map fun i => v.data j k i

/-- Minimum of a list of integers (head-seeded, as `np.min` over a
nonempty array; the `[]` case is junk). -/
def listMinI : List Int → Int
  | [] => 0
  | [x] => x
  | x :: y :: xs => min x (listMinI (y :: xs))

/-- Maximum of a list of integers (junk on `[]`). -/
def listMaxI : List Int → Int
  | [] => 0
  | [x] => x
  | x :: y :: xs => max x (listMaxI (y :: xs))

/-- `volume.min()`. -/
def volMin (v : Volume) : Int := listMinI (volVals v)

/-- `volume.max()`. -/
def volMax (v : Volume) : Int := listMaxI (volVals v)

/-- The denominator `volume.max() - volume.min()` of the normalization. -/
def normDenom (v : Volume) : ℚ := (volMax v : ℚ) - (volMin v : ℚ)

/-- A 3D array of normalized (rational, standing in for float) voxels. -/
structure QVolume where
  rows : Nat
  cols : Nat
  depth : Nat
  data : Nat → Nat → Nat → ℚ

/-- `volume = (volume - volume.min()) / (volume.max() - volume.min())`,
in exact rational arithmetic. -/
def normalizeVol (v : Volume) : QVolume :=
  { rows := v.rows, cols := v.cols, depth := v.depth,
    data := fun j k i => ((v.data j k i : ℚ) - (volMin v : ℚ)) / normDenom v }

/-- `(pixel_spacing[0], pixel_spacing[1], slice_thickness)` read from one
file's metadata. -/
def spacingOf (f : DicomFile) : ℚ × ℚ × ℚ :=
  (f.pixelSpacing.1, f.pixelSpacing.2, f.sliceThickness)

/-- `load_dicom_series`: returns the normalized volume and the spacing
triple, or `none` when the Python code raises. -/
def load_dicom_series (dir : List DicomFile) : Option (QVolume × (ℚ × ℚ × ℚ)) :=
  (loadStack dir).map fun p => (normalizeVol p.1, spacingOf p.2)

/-- The raw slice `volume[:, :, t]` of a stacked (pre-normalization) volume. -/
def rawSliceZ (v : Volume) (t : Nat) : Nat → Nat → Int := fun j k => v.data j k t

/-- A file met during `os.walk`: its name, and `some desc` when
`pydicom.dcmread(..., stop_before_pixels=True)` succeeds with
`desc = dicom_data.get('SeriesDescription', '')`, or `none` when it raises
`InvalidDicomError`. -/
structure WalkFile where
  name : Str
  parsed : Option Str

/-- The search pattern `'t1'`. -/
def t1Pat : Str := "t1".toList

/-- Whether a walk file is the kind `find_t1_series` returns on: a `.dcm`
name, parseable, and a `SeriesDescription` containing `'t1'`
case-insensitively. -/
def t1Hit (f : WalkFile) : Bool :=
  isDcmName f.name &&
    match f.parsed with
    | some desc => strContains t1Pat (lowerStr desc)
    | none => false

/-- The inner loop of `find_t1_series` over the files of one walk root:
suffix test, guarded parse (invalid files skipped), substring test. -/
def scanFiles (root : Str) : List WalkFile → Option Str
  | [] => none
  | f :: fs =>
      if isDcmName f.name then
        match f.parsed with
        | some desc =>
            if strContains t1Pat (lowerStr desc) then some root
            else scanFiles root fs
        | none => scanFiles root fs
      else scanFiles root fs

/-- `find_t1_series`, iterating over the `os.walk` traversal. -/
def find_t1_series : List (Str × List WalkFile) → Option Str
  | [] => none
  | (root, files) :: rest =>
      match scanFiles root files with
      | some r => some r
      | none => find_t1_series rest

/-- The walk traversal flattened to (root, file) pairs in encounter order. -/
def walkPairs (walk : List (Str × List WalkFile)) : List (Str × WalkFile) :=
  walk.flatMap fun p => p.2.map fun f => (p.1, f)

/-- The `view_axis` selector with objects `['x', 'y', 'z']`. -/
inductive Axis
  | x
  | y
  | z
deriving DecidableEq

/-- The state of an `MRIVisualization` object: the loaded volume and
spacing, the two param values, and the bounds of the `slice_index` param. -/
structure MRIVisualization where
  volume : QVolume
  spacing : ℚ × ℚ × ℚ
  slice_index : Nat
  view_axis : Axis
  bounds : Nat × Nat

/-- `MRIVisualization.__init__`: load the series, then set
`self.param.slice_index.bounds = (0, self.volume.shape[2] - 1)`; the param
defaults are `slice_index = 0`, `view_axis = 'z'`. -/
def MRIVisualization.init (dir : List DicomFile) : Option MRIVisualization :=
  (load_dicom_series dir).map fun p =>
    { volume := p.1, spacing := p.2, slice_index := 0, view_axis := Axis.z,
      bounds := (0, p.1.depth - 1) }

/-- Assignment to the `view_axis` param (the radio-box widget firing). -/
def set_view_axis (s : MRIVisualization) (a : Axis) : MRIVisualization :=
  { s with view_axis := a }

/-- Assignment to the `slice_index` param (the slider widget firing). -/
def set_slice_index (s : MRIVisualization) (i : Nat) : MRIVisualization :=
  { s with slice_index := i }

/-- The state with both params replaced. -/
def stateWith (s : MRIVisualization) (a : Axis) (i : Nat) : MRIVisualization :=
  { s with view_axis := a, slice_index := i }

/-- The slice-data selection in `MRIVisualization.view` (the `if/elif/else`
on `self.view_axis`); the 2D array that gets rendered. -/
def view (s : MRIVisualization) : Nat → Nat → ℚ :=
  if s.view_axis = Axis.x then fun a b => s.volume.data s.slice_index a b
  else if s.view_axis = Axis.y then fun a b => s.volume.data a s.slice_index b
  else fun a b => s.volume.data a b s.slice_index

/-- `volume[i, :, :]`. -/
def sliceX (v : QVolume) (i : Nat) : Nat → Nat → ℚ := fun a b => v.data i a b

/-- `volume[:, i, :]`. -/
def sliceY (v : QVolume) (i : Nat) : Nat → Nat → ℚ := fun a b => v.data a i b

/-- `volume[:, :, i]`. -/
def sliceZ (v : QVolume) (i : Nat) : Nat → Nat → ℚ := fun a b => v.data a b i

/-- A `slice_index` value the slider permits: within the declared bounds. -/
def permitted (s : MRIVisualization) (i : Nat) : Prop :=
  s.bounds.1 ≤ i ∧ i ≤ s.bounds.2

instance (s : MRIVisualization) (i : Nat) : Decidable (permitted s i) := by
  unfold permitted
  infer_instance

/-- Whether the numpy indexing performed by `view` is in bounds for the
current `view_axis` and `slice_index`. -/
def viewInBounds (s : MRIVisualization) : Prop :=
  if s.view_axis = Axis.x then s.slice_index < s.volume.rows
  else if s.view_axis = Axis.y then s.slice_index < s.volume.cols
  else s.slice_index < s.volume.depth

instance (s : MRIVisualization) : Decidable (viewInBounds s) := by
  unfold viewInBounds
  split
  · exact inferInstanceAs (Decidable (_ < _))
  · split
    · exact inferInstanceAs (Decidable (_ < _))
    · exact inferInstanceAs (Decidable (_ < _))

/-- `create_mri_visualization`: builds the object and returns its panel, or
catches, logs and re-raises the exception (`Except.error`); the panel is
modelled by the visualization state it wraps. -/
def create_mri_visualization (dir : List DicomFile) : Except Str MRIVisualization :=
  match MRIVisualization.init dir with
  | some s => Except.ok s
  | none => Except.error ("Failed to create visualization".toList)

/-! Concrete demonstration data used by the witness theorems. -/

/-- A concrete 2×2 DICOM file with instance number 2. -/
def fileA : DicomFile :=
  { name := "IM0002.DCM".toList, instanceNumber := 2, rows := 2, cols := 2,
    pixels := [[5, 1], [2, 3]], pixelSpacing := (1, 1), sliceThickness := 3 }

/-- A concrete 2×2 DICOM file with instance number 1. -/
def fileB : DicomFile :=
  { name := "im0001.dcm".toList, instanceNumber := 1, rows := 2, cols := 2,
    pixels := [[0, 4], [1, 1]], pixelSpacing := (2, 2), sliceThickness := 5 }

/-- A non-DICOM file sitting in the same directory. -/
def fileNote : DicomFile :=
  { name := "readme.txt".toList, instanceNumber := 0, rows := 0, cols := 0,
    pixels := [], pixelSpacing := (0, 0), sliceThickness := 0 }

/-- A concrete directory listing: two DICOM slices (listed out of instance
order) and a stray text file. -/
def demoDir : List DicomFile := [fileA, fileNote, fileB]

/-- A directory with no `.dcm` files at all. -/
def emptyDir : List DicomFile := [fileNote]

/-- Fallback state for `Option.getD`. -/
def junkVis : MRIVisualization :=
  { volume := { rows := 0, cols := 0, depth := 0, data := fun _ _ _ => 0 },
    spacing := (0, 0, 0), slice_index := 0, view_axis := Axis.z, bounds := (0, 0) }

/-- The visualization state built from `demoDir`. -/
def demoVis : MRIVisualization := (MRIVisualization.init demoDir).getD junkVis

/-- The raw stacked volume built from `demoDir`. -/
def demoStack : Volume × DicomFile := (loadStack demoDir).getD (zerosVol 0 0 0, dummyFile)

/-- Fallback value for `Option.getD` on a load result. -/
def junkLoad : QVolume × (ℚ × ℚ × ℚ) :=
  ({ rows := 0, cols := 0, depth := 0, data := fun _ _ _ => 0 }, (0, 0, 0))

/-- The full load result for `demoDir`. -/
def demoLoad : QVolume × (ℚ × ℚ × ℚ) := (load_dicom_series demoDir).getD junkLoad

/-- `demoVis` with a different spacing and different (stale) bounds but the
same volume and param values; used to exhibit noninterference. -/
def demoVisB : MRIVisualization :=
  { demoVis with spacing := (9, 9, 9), bounds := (0, 99) }


/-! ### Helper lemmas -/

theorem insertFile_perm (a : DicomFile) (l : List DicomFile) :
    (insertFile a l).Perm (a :: l) := by
  induction l with
  | nil => simp [insertFile]
  | cons b bs ih =>
      by_cases h : a.instanceNumber ≤ b.instanceNumber
      · simp [insertFile, h]
      · simp only [insertFile, h, if_neg, if_false]
        exact (List.Perm.cons b ih).trans (List.Perm.swap a b bs)

theorem sortFiles_perm (l : List DicomFile) : (sortFiles l).Perm l := by
  induction l with
  | nil => simp [sortFiles]
  | cons a as ih =>
      exact (insertFile_perm a (sortFiles as)).trans (List.Perm.cons a ih)

theorem mem_insertFile {x a : DicomFile} {l : List DicomFile} :
    x ∈ insertFile a l ↔ x = a ∨ x ∈ l := by
  have h : x ∈ insertFile a l ↔ x ∈ a :: l := (insertFile_perm a l).mem_iff
  simpa using h

theorem insertFile_sorted {a : DicomFile} {l : List DicomFile}
    (h : l.Pairwise leInst) : (insertFile a l).Pairwise leInst := by
  induction l with
  | nil => simp [insertFile, List.Pairwise]
  | cons b bs ih =>
      rcases List.pairwise_cons.mp h with ⟨hb, hbs⟩
      by_cases hab : a.instanceNumber ≤ b.instanceNumber
      · simp only [insertFile, if_pos hab]
        refine List.pairwise_cons.mpr ⟨?_, h⟩
        intro x hx
        rcases List.mem_cons.mp hx with rfl | hx
        · exact hab
        · exact le_trans hab (hb x hx)
      · simp only [insertFile, if_neg hab]
        refine List.pairwise_cons.mpr ⟨?_, ih hbs⟩
        intro x hx
        rcases mem_insertFile.mp hx with rfl | hx
        · exact le_of_not_le hab
        · exact hb x hx

theorem sortFiles_sorted (l : List DicomFile) : (sortFiles l).Pairwise leInst := by
  induction l with
  | nil => simp [sortFiles, List.Pairwise]
  | cons a as ih => exact insertFile_sorted ih

theorem assignSlice_some_spec {vol : Volume} {i : Nat} {f : DicomFile} {v2 : Volume}
    (h : assignSlice vol i f = some v2) :
    v2.rows = vol.rows ∧ v2.cols = vol.cols ∧ v2.depth = vol.depth ∧
      ∀ j k m, v2.data j k m = if m = i then pixelAt f j k else vol.data j k m := by
  unfold assignSlice at h
  split at h
  · injection h with h
    subst h
    exact ⟨rfl, rfl, rfl, fun j k m => rfl⟩
  · cases h

theorem shapeOk_congr {v1 v2 : Volume} (hr : v2.rows = v1.rows) (hc : v2.cols = v1.cols)
    (f : DicomFile) : shapeOk v2 f = shapeOk v1 f := by
  simp [shapeOk, hr, hc]

theorem assignSlice_isSome {vol : Volume} {i : Nat} {f : DicomFile} :
    (assignSlice vol i f).isSome ↔ shapeOk vol f = true := by
  unfold assignSlice
  split <;> simp [*]

theorem loadLoop_dims :
    ∀ (fs : List DicomFile) (i : Nat) (vol : Volume) (ds : DicomFile)
      (v : Volume) (d : DicomFile), loadLoop fs i vol ds = some (v, d) →
      v.rows = vol.rows ∧ v.cols = vol.cols ∧ v.depth = vol.depth := by
  intro fs
  induction fs with
  | nil =>
      intro i vol ds v d h
      simp only [loadLoop, Option.some.injEq, Prod.mk.injEq] at h
      rcases h with ⟨rfl, rfl⟩
      exact ⟨rfl, rfl, rfl⟩
  | cons f fs ih =>
      intro i vol ds v d h
      simp only [loadLoop] at h
      cases hA : assignSlice vol i f with
      | none => rw [hA] at h; cases h
      | some v2 =>
          rw [hA] at h
          simp only [Option.some_bind] at h
          obtain ⟨h1, h2, h3, _⟩ := assignSlice_some_spec hA
          obtain ⟨g1, g2, g3⟩ := ih (i + 1) v2 f v d h
          exact ⟨g1.trans h1, g2.trans h2, g3.trans h3⟩

theorem loadLoop_last :
    ∀ (fs : List DicomFile) (i : Nat) (vol : Volume) (ds : DicomFile)
      (v : Volume) (d : DicomFile), loadLoop fs i vol ds = some (v, d) →
      d = fs.getLastD ds := by
  intro fs
  induction fs with
  | nil =>
      intro i vol ds v d h
      simp only [loadLoop, Option.some.injEq, Prod.mk.injEq] at h
      exact h.2.symm
  | cons f fs ih =>
      intro i vol ds v d h
      simp only [loadLoop] at h
      cases hA : assignSlice vol i f with
      | none => rw [hA] at h; cases h
      | some v2 =>
          rw [hA] at h
          simp only [Option.some_bind] at h
          rw [List.getLastD_cons]
          exact ih (i + 1) v2 f v d h

theorem loadLoop_data :
    ∀ (fs : List DicomFile) (i : Nat) (vol : Volume) (ds : DicomFile)
      (v : Volume) (d : DicomFile), loadLoop fs i vol ds = some (v, d) →
      (∀ j k m, m < i → v.data j k m = vol.data j k m) ∧
      (∀ j k t, t < fs.length → v.data j k (i + t) = pixelAt (fs.getD t dummyFile) j k) := by
  intro fs
  induction fs with
  | nil =>
      intro i vol ds v d h
      simp only [loadLoop, Option.some.injEq, Prod.mk.injEq] at h
      rcases h with ⟨rfl, rfl⟩
      exact ⟨fun j k m _ => rfl, fun j k t ht => absurd ht (by simp)⟩
  | cons f fs ih =>
      intro i vol ds v d h
      simp only [loadLoop] at h
      cases hA : assignSlice vol i f with
      | none => rw [hA] at h; cases h
      | some v2 =>
          rw [hA] at h
          simp only [Option.some_bind] at h
          obtain ⟨_, _, _, hdata⟩ := assignSlice_some_spec hA
          obtain ⟨ih1, ih2⟩ := ih (i + 1) v2 f v d h
          constructor
          · intro j k m hm
            have h1 : v.data j k m = v2.data j k m := ih1 j k m (Nat.lt_succ_of_lt hm)
            rw [h1, hdata]
            exact if_neg (Nat.ne_of_lt hm)
          · intro j k t ht
            cases t with
            | zero =>
                have h1 : v.data j k (i + 0) = v2.data j k i := by
                  rw [Nat.add_zero]
                  exact ih1 j k i (Nat.lt_succ_self i)
                rw [h1, hdata]
                simp
            | succ s =>
                have hs : s < fs.length := by
                  simpa [Nat.succ_lt_succ_iff] using ht
                have harith : i + (s + 1) = (i + 1) + s := by omega
                rw [harith, ih2 j k s hs]
                simp [List.getD_cons_succ]

theorem loadLoop_some :
    ∀ (fs : List DicomFile) (vol : Volume) (i : Nat) (ds : DicomFile),
      (∀ f ∈ fs, shapeOk vol f = true) →
      ∃ v d, loadLoop fs i vol ds = some (v, d) := by
  intro fs
  induction fs with
  | nil => intro vol i ds _; exact ⟨vol, ds, rfl⟩
  | cons f fs ih =>
      intro vol i ds h
      have hf : shapeOk vol f = true := h f (List.mem_cons_self f fs)
      obtain ⟨v2, hA⟩ := Option.isSome_iff_exists.mp ((@assignSlice_isSome vol i f).mpr hf)
      obtain ⟨hr, hc, _, _⟩ := assignSlice_some_spec hA
      have h2 : ∀ g ∈ fs, shapeOk v2 g = true := by
        intro g hg
        rw [shapeOk_congr hr hc]
        exact h g (List.mem_cons_of_mem f hg)
      obtain ⟨v, d, hl⟩ := ih v2 (i + 1) f h2
      exact ⟨v, d, by simp [loadLoop, hA, hl]⟩

/-- What a successful `loadStack` yields: the sorted list is nonempty, the
dims come from the first sorted file's metadata and the file count, the loop
variable `ds` ends as the last sorted file, and slice `t` holds the `t`-th
sorted file's pixel array. -/
theorem loadStack_some_spec {dir : List DicomFile} {vol : Volume} {ds : DicomFile}
    (h : loadStack dir = some (vol, ds)) :
    sortedDcm dir ≠ [] ∧
      vol.rows = ((sortedDcm dir).getD 0 dummyFile).rows ∧
      vol.cols = ((sortedDcm dir).getD 0 dummyFile).cols ∧
      vol.depth = (sortedDcm dir).length ∧
      ds = (sortedDcm dir).getLastD dummyFile ∧
      ∀ j k t, t < (sortedDcm dir).length →
        vol.data j k t = pixelAt ((sortedDcm dir).getD t dummyFile) j k := by
  unfold loadStack at h
  cases hs : sortedDcm dir with
  | nil => rw [hs] at h; cases h
  | cons f0 rest =>
      rw [hs] at h
      refine ⟨by simp, ?_, ?_, ?_, ?_, ?_⟩
      · simpa using (loadLoop_dims _ _ _ _ _ _ h).1
      · simpa using (loadLoop_dims _ _ _ _ _ _ h).2.1
      · simpa using (loadLoop_dims _ _ _ _ _ _ h).2.2
      · rw [loadLoop_last _ _ _ _ _ _ h, List.getLastD_cons, List.getLastD_cons]
      · intro j k t ht
        have h2 := (loadLoop_data _ _ _ _ _ _ h).2 j k t (by simpa using ht)
        simpa using h2

theorem listMinI_le {l : List Int} : ∀ x ∈ l, listMinI l ≤ x := by
  induction l with
  | nil => simp
  | cons a xs ih =>
      cases xs with
      | nil => intro x hx; simp at hx; simp [listMinI, hx]
      | cons b ys =>
          intro x hx
          rcases List.mem_cons.mp hx with rfl | hx
          · exact min_le_left _ _
          · exact le_trans (min_le_right _ _) (ih x hx)

theorem listMinI_mem {l : List Int} (h : l ≠ []) : listMinI l ∈ l := by
  induction l with
  | nil => exact absurd rfl h
  | cons a xs ih =>
      cases xs with
      | nil => simp [listMinI]
      | cons b ys =>
          rcases le_total a (listMinI (b :: ys)) with hle | hle
          · simp [listMinI, min_eq_left hle]
          · have heq : listMinI (a :: b :: ys) = listMinI (b :: ys) := by
              simp [listMinI, min_eq_right hle]
            rw [heq]
            exact List.mem_cons_of_mem a (ih (by simp))

theorem le_listMaxI {l : List Int} : ∀ x ∈ l, x ≤ listMaxI l := by
  induction l with
  | nil => simp
  | cons a xs ih =>
      cases xs with
      | nil => intro x hx; simp at hx; simp [listMaxI, hx]
      | cons b ys =>
          intro x hx
          rcases List.mem_cons.mp hx with rfl | hx
          · exact le_max_left _ _
          · exact le_trans (ih x hx) (le_max_right _ _)

theorem listMaxI_mem {l : List Int} (h : l ≠ []) : listMaxI l ∈ l := by
  induction l with
  | nil => exact absurd rfl h
  | cons a xs ih =>
      cases xs with
      | nil => simp [listMaxI]
      | cons b ys =>
          rcases le_total (listMaxI (b :: ys)) a with hle | hle
          · simp [listMaxI, max_eq_left hle]
          · have heq : listMaxI (a :: b :: ys) = listMaxI (b :: ys) := by
              simp [listMaxI, max_eq_right hle]
            rw [heq]
            exact List.mem_cons_of_mem a (ih (by simp))

theorem mem_volVals {v : Volume} {x : Int} :
    x ∈ volVals v ↔
      ∃ j k i, j < v.rows ∧ k < v.cols ∧ i < v.depth ∧ v.data j k i = x := by
  simp only [volVals, List.mem_flatMap, List.mem_map, List.mem_range]
  constructor
  · rintro ⟨j, hj, k, hk, i, hi, hx⟩
    exact ⟨j, k, i, hj, hk, hi, hx⟩
  · rintro ⟨j, k, i, hj, hk, hi, hx⟩
    exact ⟨j, hj, k, hk, i, hi, hx⟩

theorem volMin_le {v : Volume} {j k i : Nat}
    (hj : j < v.rows) (hk : k < v.cols) (hi : i < v.depth) :
    volMin v ≤ v.data j k i :=
  listMinI_le _ (mem_volVals.mpr ⟨j, k, i, hj, hk, hi, rfl⟩)

theorem le_volMax {v : Volume} {j k i : Nat}
    (hj : j < v.rows) (hk : k < v.cols) (hi : i < v.depth) :
    v.data j k i ≤ volMax v :=
  le_listMaxI _ (mem_volVals.mpr ⟨j, k, i, hj, hk, hi, rfl⟩)

/-- The inner loop of `find_t1_series` is a first-match search over the
files of one root. -/
theorem scanFiles_eq (root : Str) (files : List WalkFile) :
    scanFiles root files = (files.find? t1Hit).map fun _ => root := by
  induction files with
  | nil => rfl
  | cons f fs ih =>
      by_cases hd : isDcmName f.name
      · cases hp : f.parsed with
        | some desc =>
            by_cases hc : strContains t1Pat (lowerStr desc) = true
            · have ht : t1Hit f = true := by simp [t1Hit, hd, hp, hc]
              simp [scanFiles, hd, hp, hc, List.find?_cons_of_pos fs ht]
            · have ht : ¬t1Hit f = true := by simp [t1Hit, hd, hp, hc]
              simp [scanFiles, hd, hp, hc, List.find?_cons_of_neg fs ht, ih]
        | none =>
            have ht : ¬t1Hit f = true := by simp [t1Hit, hp]
            simp [scanFiles, hd, hp, List.find?_cons_of_neg fs ht, ih]
      · have ht : ¬t1Hit f = true := by simp [t1Hit, hd]
        simp [scanFiles, hd, List.find?_cons_of_neg fs ht, ih]

/-! ### Claim theorems -/

/-- C4: `find_t1_series` returns the walk root of the first `.dcm` file in
`os.walk` order whose parsed `SeriesDescription` contains `'t1'`
case-insensitively, and `none` when no such file exists; files that raise
`InvalidDicomError` are skipped without aborting the search.  Stated as:
the nested-loop search equals a first-match scan (`List.find?` of `t1Hit`)
over the flattened (root, file) traversal, projected to the root. -/
theorem find_t1_series_first_match (walk : List (Str × List WalkFile)) :
    find_t1_series walk = ((walkPairs walk).find? fun p => t1Hit p.2).map Prod.fst := by
  induction walk with
  | nil => rfl
  | cons rp rest ih =>
      obtain ⟨root, files⟩ := rp
      have hwp : walkPairs ((root, files) :: rest)
          = (files.map fun f => (root, f)) ++ walkPairs rest := by
        simp [walkPairs]
      have hcomp : ((fun p : Str × WalkFile => t1Hit p.2) ∘ fun f => (root, f)) = t1Hit := rfl
      show (match scanFiles root files with
            | some r => some r
            | none => find_t1_series rest) = _
      rw [scanFiles_eq, hwp, List.find?_append, List.find?_map, hcomp]
      cases hf : files.find? t1Hit with
      | none => simpa using ih
      | some f => simp

/-- C9: on a directory with no `.dcm` files, `load_dicom_series` fails (the
`dicom_files[0]` lookup has nothing to return), and
`create_mri_visualization` propagates the failure to its caller instead of
returning a panel. -/
theorem load_empty_dir_fails (dir : List DicomFile) (h : dcmFilter dir = []) :
    load_dicom_series dir = none ∧
      create_mri_visualization dir
        = Except.error ("Failed to create visualization".toList) := by
  have hs : sortedDcm dir = [] := by simp [sortedDcm, h, sortFiles]
  have hstack : loadStack dir = none := by
    unfold loadStack
    rw [hs]
  have hload : load_dicom_series dir = none := by
    simp [load_dicom_series, hstack]
  refine ⟨hload, ?_⟩
  simp [create_mri_visualization, MRIVisualization.init, hload]

/-- Witness for C9 at the concrete directory `emptyDir`. -/
theorem load_empty_dir_fails_witness :
    load_dicom_series emptyDir = none ∧
      create_mri_visualization emptyDir
        = Except.error ("Failed to create visualization".toList) :=
  load_empty_dir_fails emptyDir (by rfl)

/-- C1: on any directory where the stacking loop completes,
`load_dicom_series` is a linear scan-sort-stack: the sorted list is a
permutation of the `.dcm`-named files, it is ascending in `InstanceNumber`,
the volume has one slice per file along the third axis, and slice `t` of the
pre-normalization volume is the pixel array of the `t`-th file in sorted
(ascending `InstanceNumber`) order. -/
theorem load_dicom_series_scan_sort_stack {dir : List DicomFile} {vol : Volume}
    {ds : DicomFile} (h : loadStack dir = some (vol, ds)) :
    (sortedDcm dir).Perm (dcmFilter dir) ∧
      (sortedDcm dir).Pairwise leInst ∧
      vol.depth = (sortedDcm dir).length ∧
      ∀ t, t < (sortedDcm dir).length →
        ∀ j, j < vol.rows → ∀ k, k < vol.cols →
          rawSliceZ vol t j k = pixelAt ((sortedDcm dir).getD t dummyFile) j k := by
  obtain ⟨hne, hr, hc, hd, hlast, hdata⟩ := loadStack_some_spec h
  exact ⟨sortFiles_perm _, sortFiles_sorted _, hd,
    fun t ht j hj k hk => hdata j k t ht⟩

/-- Witness for C1 on `demoDir`: slice 0 of the raw stacked volume is the
pixel array of the file with the smallest `InstanceNumber`. -/
theorem load_dicom_series_scan_sort_stack_witness :
    rawSliceZ demoStack.1 0 0 1 = pixelAt ((sortedDcm demoDir).getD 0 dummyFile) 0 1 :=
  (load_dicom_series_scan_sort_stack (by rfl)).2.2.2 0 (by decide) 0 (by decide) 1 (by decide)

/-- C5: on a directory of `N ≥ 1` DICOM slice files whose pixel arrays all
have the (Rows, Columns) shape recorded in the metadata of the first file in
sorted order, `load_dicom_series` returns a volume of shape
(Rows, Columns, N), each file contributing exactly one 2D slice. -/
theorem load_dicom_series_shape (dir : List DicomFile)
    (hne : dcmFilter dir ≠ [])
    (hshape : ∀ f ∈ dcmFilter dir,
      f.pixels.length = ((sortedDcm dir).getD 0 dummyFile).rows ∧
      ∀ r ∈ f.pixels, r.length = ((sortedDcm dir).getD 0 dummyFile).cols) :
    ∃ vol ds, loadStack dir = some (vol, ds) ∧
      load_dicom_series dir = some (normalizeVol vol, spacingOf ds) ∧
      vol.rows = ((sortedDcm dir).getD 0 dummyFile).rows ∧
      vol.cols = ((sortedDcm dir).getD 0 dummyFile).cols ∧
      vol.depth = (dcmFilter dir).length ∧
      ∀ t, t < (dcmFilter dir).length →
        ∀ j, j < vol.rows → ∀ k, k < vol.cols →
          rawSliceZ vol t j k = pixelAt ((sortedDcm dir).getD t dummyFile) j k := by
  have hperm : (sortedDcm dir).Perm (dcmFilter dir) := sortFiles_perm _
  have hlen : (sortedDcm dir).length = (dcmFilter dir).length := hperm.length_eq
  have hsne : sortedDcm dir ≠ [] := by
    intro hnil
    apply hne
    have hp0 : List.Perm [] (dcmFilter dir) := by rw [← hnil]; exact hperm
    exact hp0.symm.eq_nil
  obtain ⟨f0, rest, hs⟩ := List.exists_cons_of_ne_nil hsne
  have hp2 : (f0 :: rest).Perm (dcmFilter dir) := by rw [← hs]; exact hperm
  have hget0 : (sortedDcm dir).getD 0 dummyFile = f0 := by rw [hs]; rfl
  have hsh : ∀ f ∈ (f0 :: rest),
      shapeOk (zerosVol f0.rows f0.cols (f0 :: rest).length) f = true := by
    intro f hf
    obtain ⟨h1, h2⟩ := hshape f (hp2.mem_iff.mp hf)
    rw [hget0] at h1 h2
    simp only [shapeOk, zerosVol, Bool.and_eq_true, beq_iff_eq, List.all_eq_true]
    exact ⟨h1, fun r hr => by simpa using h2 r hr⟩
  obtain ⟨v, d, hl⟩ :=
    loadLoop_some (f0 :: rest) (zerosVol f0.rows f0.cols (f0 :: rest).length) 0 f0 hsh
  have hstack : loadStack dir = some (v, d) := by
    unfold loadStack
    rw [hs]
    exact hl
  obtain ⟨_, hr, hc, hd, _, hdata⟩ := loadStack_some_spec hstack
  refine ⟨v, d, hstack, by simp [load_dicom_series, hstack], ?_, ?_, ?_, ?_⟩
  · exact hr
  · exact hc
  · rw [hd, hlen]
  · intro t ht j hj k hk
    exact hdata j k t (by rw [hlen]; exact ht)

/-- Witness for C5 on `demoDir`: the load succeeds and the volume has shape
(2, 2, 2), the metadata shape of the first sorted file and the file count. -/
theorem load_dicom_series_shape_witness :
    ∃ vol ds, loadStack demoDir = some (vol, ds) ∧
      load_dicom_series demoDir = some (normalizeVol vol, spacingOf ds) ∧
      vol.rows = ((sortedDcm demoDir).getD 0 dummyFile).rows ∧
      vol.cols = ((sortedDcm demoDir).getD 0 dummyFile).cols ∧
      vol.depth = (dcmFilter demoDir).length ∧
      ∀ t, t < (dcmFilter demoDir).length →
        ∀ j, j < vol.rows → ∀ k, k < vol.cols →
          rawSliceZ vol t j k = pixelAt ((sortedDcm demoDir).getD t dummyFile) j k :=
  load_dicom_series_shape demoDir (by exact List.cons_ne_nil _ _) (by decide)

/-- C6: after a successful load, with the stacked data not constant
(min < max), every normalized voxel lies in `[0, 1]`, a voxel holding the
minimum is mapped to 0 and one holding the maximum to 1 (and such voxels
exist); when all stacked values are equal the normalization denominator
`volume.max() - volume.min()` is zero. -/
theorem load_dicom_series_normalization {dir : List DicomFile} {vol : Volume}
    {ds : DicomFile} (h : loadStack dir = some (vol, ds)) :
    load_dicom_series dir = some (normalizeVol vol, spacingOf ds) ∧
      (volMin vol < volMax vol →
        (∀ j k i, j < vol.rows → k < vol.cols → i < vol.depth →
          0 ≤ (normalizeVol vol).data j k i ∧ (normalizeVol vol).data j k i ≤ 1) ∧
        (∀ j k i, vol.data j k i = volMin vol → (normalizeVol vol).data j k i = 0) ∧
        (∀ j k i, vol.data j k i = volMax vol → (normalizeVol vol).data j k i = 1) ∧
        (∃ j k i, j < vol.rows ∧ k < vol.cols ∧ i < vol.depth ∧
          (normalizeVol vol).data j k i = 0) ∧
        (∃ j k i, j < vol.rows ∧ k < vol.cols ∧ i < vol.depth ∧
          (normalizeVol vol).data j k i = 1)) ∧
      ((∀ x ∈ volVals vol, ∀ y ∈ volVals vol, x = y) → normDenom vol = 0) := by
  refine ⟨by simp [load_dicom_series, h], ?_, ?_⟩
  · intro hmm
    have hden : (0 : ℚ) < normDenom vol := by
      have hcast : (volMin vol : ℚ) < (volMax vol : ℚ) := Int.cast_lt.mpr hmm
      unfold normDenom
      linarith
    have hzero : ∀ j k i, vol.data j k i = volMin vol →
        (normalizeVol vol).data j k i = 0 := by
      intro j k i hmin
      simp [normalizeVol, hmin]
    have hone : ∀ j k i, vol.data j k i = volMax vol →
        (normalizeVol vol).data j k i = 1 := by
      intro j k i hmax
      show ((vol.data j k i : ℚ) - (volMin vol : ℚ)) / normDenom vol = 1
      rw [hmax]
      exact div_self (ne_of_gt hden)
    have hvne : volVals vol ≠ [] := by
      intro hnil
      unfold volMin volMax at hmm
      rw [hnil] at hmm
      simp [listMinI, listMaxI] at hmm
    refine ⟨?_, hzero, hone, ?_, ?_⟩
    · intro j k i hj hk hi
      constructor
      · show 0 ≤ ((vol.data j k i : ℚ) - (volMin vol : ℚ)) / normDenom vol
        apply div_nonneg _ hden.le
        have hlo : (volMin vol : ℚ) ≤ (vol.data j k i : ℚ) :=
          Int.cast_le.mpr (volMin_le hj hk hi)
        linarith
      · show ((vol.data j k i : ℚ) - (volMin vol : ℚ)) / normDenom vol ≤ 1
        rw [div_le_one hden]
        have hhi : (vol.data j k i : ℚ) ≤ (volMax vol : ℚ) :=
          Int.cast_le.mpr (le_volMax hj hk hi)
        unfold normDenom
        linarith
    · obtain ⟨j, k, i, hj, hk, hi, hdat⟩ := mem_volVals.mp (listMinI_mem hvne)
      exact ⟨j, k, i, hj, hk, hi, hzero j k i hdat⟩
    · obtain ⟨j, k, i, hj, hk, hi, hdat⟩ := mem_volVals.mp (listMaxI_mem hvne)
      exact ⟨j, k, i, hj, hk, hi, hone j k i hdat⟩
  · intro hall
    cases hv : volVals vol with
    | nil =>
        unfold normDenom volMin volMax
        rw [hv]
        simp [listMinI, listMaxI]
    | cons x xs =>
        have hminmem : listMinI (volVals vol) ∈ volVals vol :=
          listMinI_mem (by rw [hv]; simp)
        have hmaxmem : listMaxI (volVals vol) ∈ volVals vol :=
          listMaxI_mem (by rw [hv]; simp)
        have heq := hall _ hmaxmem _ hminmem
        unfold normDenom volMin volMax
        rw [heq]
        ring

/-- Witness for C6 on `demoDir`: the stacked data there has min 0 and max 5,
and the normalized voxel at (0, 0, 1) (raw value 5) is mapped to 1. -/
theorem load_dicom_series_normalization_witness :
    load_dicom_series demoDir = some (normalizeVol demoStack.1, spacingOf demoStack.2) ∧
      (normalizeVol demoStack.1).data 0 0 1 = 1 := by
  have H := load_dicom_series_normalization (by rfl :
    loadStack demoDir = some (demoStack.1, demoStack.2))
  exact ⟨H.1, (H.2.1 (by decide)).2.2.1 0 0 1 (by decide)⟩

/-- C7: alongside the volume, `load_dicom_series` returns the spacing triple
`(PixelSpacing[0], PixelSpacing[1], SliceThickness)` read from the metadata
of a single file of the series, namely the last file in sorted
`InstanceNumber` order (the final value of the loop variable `ds`). -/
theorem load_dicom_series_spacing_from_last {dir : List DicomFile}
    {vol : QVolume} {sp : ℚ × ℚ × ℚ}
    (h : load_dicom_series dir = some (vol, sp)) :
    sp = spacingOf ((sortedDcm dir).getLastD dummyFile) := by
  unfold load_dicom_series at h
  cases hstack : loadStack dir with
  | none => rw [hstack] at h; cases h
  | some p =>
      obtain ⟨raw, ds⟩ := p
      rw [hstack] at h
      simp only [Option.map, Option.some.injEq, Prod.mk.injEq] at h
      have hlast := (loadStack_some_spec hstack).2.2.2.2.1
      rw [← h.2, hlast]

/-- Witness for C7 on `demoDir`: the returned spacing is the one of the last
sorted file (`fileA`, instance number 2). -/
theorem load_dicom_series_spacing_from_last_witness :
    demoLoad.2 = spacingOf ((sortedDcm demoDir).getLastD dummyFile) :=
  load_dicom_series_spacing_from_last (by rfl)

/-- C2: for a `slice_index` within the slider bounds, the slice `view`
selects is exactly the one picked out by the selected axis: `volume[i, :, :]`
for axis `'x'`, `volume[:, i, :]` for `'y'`, `volume[:, :, i]` for `'z'`. -/
theorem view_renders_selected_axis_slice (s : MRIVisualization)
    (h : permitted s s.slice_index) :
    (s.view_axis = Axis.x → view s = sliceX s.volume s.slice_index) ∧
      (s.view_axis = Axis.y → view s = sliceY s.volume s.slice_index) ∧
      (s.view_axis = Axis.z → view s = sliceZ s.volume s.slice_index) := by
  refine ⟨fun ha => ?_, fun ha => ?_, fun ha => ?_⟩ <;>
    · simp only [view, ha]
      rfl

/-- Witness for C2 on the state built from `demoDir` (axis `'z'`,
index 0, which its slider bounds permit). -/
theorem view_renders_selected_axis_slice_witness :
    view demoVis = sliceZ demoVis.volume demoVis.slice_index :=
  (view_renders_selected_axis_slice demoVis (by decide)).2.2 (by rfl)

/-- C3: `__init__` sets the `slice_index` bounds once, to
`(0, volume.shape[2] - 1)`, and changing `view_axis` never updates them;
hence every permitted index is in bounds on axis `'x'` exactly when the
slice count is at most the row count, on `'y'` exactly when it is at most
the column count (axis `'z'` is always safe), and otherwise some permitted
`(slice_index, view_axis)` pair indexes the volume out of bounds. -/
theorem slice_index_bounds_static (dir : List DicomFile) (s : MRIVisualization)
    (h : MRIVisualization.init dir = some s) :
    s.bounds = (0, s.volume.depth - 1) ∧
      (∀ a, (set_view_axis s a).bounds = s.bounds) ∧
      ((∀ i, permitted s i → viewInBounds (stateWith s Axis.x i)) ↔
        s.volume.depth ≤ s.volume.rows) ∧
      ((∀ i, permitted s i → viewInBounds (stateWith s Axis.y i)) ↔
        s.volume.depth ≤ s.volume.cols) ∧
      (∀ i, permitted s i → viewInBounds (stateWith s Axis.z i)) ∧
      (s.volume.rows < s.volume.depth →
        ∃ i, permitted s i ∧ ¬viewInBounds (stateWith s Axis.x i)) ∧
      (s.volume.cols < s.volume.depth →
        ∃ i, permitted s i ∧ ¬viewInBounds (stateWith s Axis.y i)) := by
  unfold MRIVisualization.init at h
  cases hload : load_dicom_series dir with
  | none => rw [hload] at h; cases h
  | some p =>
      obtain ⟨vol, sp⟩ := p
      rw [hload] at h
      simp only [Option.map, Option.some.injEq] at h
      have hd1 : 1 ≤ vol.depth := by
        unfold load_dicom_series at hload
        cases hstack : loadStack dir with
        | none => rw [hstack] at hload; cases hload
        | some q =>
            obtain ⟨raw, ds⟩ := q
            rw [hstack] at hload
            simp only [Option.map, Option.some.injEq, Prod.mk.injEq] at hload
            obtain ⟨hsne, _, _, hdep, _, _⟩ := loadStack_some_spec hstack
            have hlen : 0 < (sortedDcm dir).length := List.length_pos.mpr hsne
            have hvol : vol = normalizeVol raw := by rw [← hload.1]
            rw [hvol]
            show 1 ≤ raw.depth
            omega
      subst h
      dsimp only
      refine ⟨rfl, fun a => rfl, ?_, ?_, ?_, ?_, ?_⟩
      · constructor
        · intro H
          have hx : vol.depth - 1 < vol.rows :=
            H (vol.depth - 1) ⟨Nat.zero_le _, le_refl _⟩
          omega
        · intro hle i hi
          have hi2 : i ≤ vol.depth - 1 := hi.2
          show i < vol.rows
          omega
      · constructor
        · intro H
          have hx : vol.depth - 1 < vol.cols :=
            H (vol.depth - 1) ⟨Nat.zero_le _, le_refl _⟩
          omega
        · intro hle i hi
          have hi2 : i ≤ vol.depth - 1 := hi.2
          show i < vol.cols
          omega
      · intro i hi
        have hi2 : i ≤ vol.depth - 1 := hi.2
        show i < vol.depth
        omega
      · intro hlt
        refine ⟨vol.rows, ⟨Nat.zero_le _, show vol.rows ≤ vol.depth - 1 by omega⟩, ?_⟩
        show ¬(vol.rows < vol.rows)
        omega
      · intro hlt
        refine ⟨vol.cols, ⟨Nat.zero_le _, show vol.cols ≤ vol.depth - 1 by omega⟩, ?_⟩
        show ¬(vol.cols < vol.cols)
        omega

/-- Witness for C3 on `demoDir`: the constructed state has bounds
`(0, depth - 1)` and changing the axis leaves them unchanged. -/
theorem slice_index_bounds_static_witness :
    demoVis.bounds = (0, demoVis.volume.depth - 1) ∧
      (set_view_axis demoVis Axis.x).bounds = demoVis.bounds := by
  have H := slice_index_bounds_static demoDir demoVis (by rfl)
  exact ⟨H.1, H.2.1 Axis.x⟩

/-- C8: the rendered slice is a function of exactly the two UI parameters
and the loaded volume: any two states agreeing on `volume`, `slice_index`
and `view_axis` (whatever their spacing or bounds) make `view` select the
same slice data. -/
theorem view_noninterference (s1 s2 : MRIVisualization)
    (hv : s1.volume = s2.volume) (hi : s1.slice_index = s2.slice_index)
    (ha : s1.view_axis = s2.view_axis) : view s1 = view s2 := by
  unfold view
  rw [hv, hi, ha]

/-- Witness for C8: `demoVis` and `demoVisB` differ in spacing and bounds
but agree on the three inputs `view` depends on, and select the same data. -/
theorem view_noninterference_witness : view demoVis = view demoVisB :=
  view_noninterference demoVis demoVisB rfl rfl rfl

end DicomViz
